import Mathlib

/-
Verification of the reactive collection facade in src/src/ObservableCollection.ts
(module MongoObservable). The mutating facade operations insert / remove /
update / upsert share one body: allocate a fresh observers array, build an
observable whose subscribe pushes a fresh rxjs Subscriber onto that array and
returns a teardown that removes it again, await the host mutation under
try/catch, then walk the array once, invoking error or next followed by
complete on each subscriber present, and finally return the observable.

The embedding below models the observers array, the subscriber objects and the
single settlement drain as explicit state, and the caller-visible control flow
of the async method bodies as a phase order.
-/

set_option maxHeartbeats 1000000

namespace MongoObservable

/-- Callback invocations a subscriber can receive: the three callbacks of the
stream abstraction (spec section 6 and glossary). -/
inductive Event (α ε : Type) where
  | next (v : α)
  | error (e : ε)
  | complete
  deriving DecidableEq

/-- Modelled from the spec: the rxjs Subscriber is part of the reused external
stream abstraction (spec section 1, section 6, glossary). Per spec section 4.2
step 4, a subscription that has been errored or completed is treated as
finished: a finished subscriber ignores further next / error / complete calls.
The received field records, in order, the callback invocations the subscriber
actually observed. -/
structure Subscriber (α ε : Type) where
  received : List (Event α ε)
  isStopped : Bool
  deriving DecidableEq

/-- A freshly created subscriber: no callbacks invoked yet, not finished. -/
def Subscriber.fresh : Subscriber α ε := ⟨[], false⟩

/-- Invoking the next callback: ignored once the subscription is finished. -/
def Subscriber.next (s : Subscriber α ε) (v : α) : Subscriber α ε :=
  if s.isStopped then s else ⟨s.received ++ [Event.next v], s.isStopped⟩

/-- Invoking the error callback: marks the subscription finished. -/
def Subscriber.error (s : Subscriber α ε) (e : ε) : Subscriber α ε :=
  if s.isStopped then s else ⟨s.received ++ [Event.error e], true⟩

/-- Invoking the complete callback: marks the subscription finished. -/
def Subscriber.complete (s : Subscriber α ε) : Subscriber α ε :=
  if s.isStopped then s else ⟨s.received ++ [Event.complete], true⟩

/-- Outcome of one awaited host mutation: it resolves with a result or rejects
with an error object, exactly once (spec section 6). -/
inductive Outcome (α ε : Type) where
  | success (result : α)
  | failure (error : ε)
  deriving DecidableEq

/-- The loop body of the settlement drain, transcribed from
ObservableCollection.ts lines 141-145 (identical at lines 172-176, 210-214 and
249-253): on the captured error branch invoke the error callback, otherwise
invoke next with the result; then invoke complete unconditionally. -/
def deliverOutcome (o : Outcome α ε) (s : Subscriber α ε) : Subscriber α ε :=
  match o with
  | .failure e => (s.error e).complete
  | .success v => (s.next v).complete

/-- The single terminal event sequence a fresh subscriber observes from the
drain: next then complete on success, error alone on failure (the unconditional
complete after error is ignored by the finished subscription). -/
def terminalEvents : Outcome α ε → List (Event α ε)
  | .success v => [Event.next v, Event.complete]
  | .failure e => [Event.error e]

/-- State of one mutating call's registry. observers is the observers array of
the method body, holding (the identities of) the subscriber objects in push
order; heap maps every subscriber identity ever created by this call to that
subscriber object (objects outlive their removal from the array); nextToken is
the source of fresh identities. -/
structure OpState (α ε : Type) where
  observers : List Nat
  heap : List (Nat × Subscriber α ε)
  nextToken : Nat
  deriving DecidableEq

/-- The registry a mutating method allocates: the empty observers array of
line 129 (and 160, 198, 237). -/
def initState : OpState α ε := ⟨[], [], 0⟩

/-- Look a subscriber object up by identity. -/
def heapLookup (h : List (Nat × Subscriber α ε)) (t : Nat) :
    Option (Subscriber α ε) :=
  (h.find? (fun p => p.1 == t)).map Prod.snd

/-- Apply a callback invocation to the subscriber object with the given
identity, leaving every other object unchanged. -/
def heapUpdate (h : List (Nat × Subscriber α ε)) (t : Nat)
    (f : Subscriber α ε → Subscriber α ε) : List (Nat × Subscriber α ε) :=
  h.map (fun p => if p.1 == t then (p.1, f p.2) else p)

/-- Modelled from the spec: removeObserver lives in src/utils.ts, which is not
present under src/. The spec (section 2, section 3, section 4.2 step 2)
describes it as idempotent remove-by-identity from the ordered registry, safe
even after the registry has been drained. Identity is the subscription token. -/
def removeObserver (observers : List Nat) (t : Nat) : List Nat :=
  observers.filter (fun u => u != t)

/-- Subscribing to the observable built by createObservable (lines 315-322):
a fresh subscriber object is pushed onto the observers array. -/
def OpState.subscribe (st : OpState α ε) : OpState α ε :=
  { observers := st.observers ++ [st.nextToken],
    heap := st.heap ++ [(st.nextToken, Subscriber.fresh)],
    nextToken := st.nextToken + 1 }

/-- The teardown returned from subscribe (lines 318-320): removeObserver on the
observers array; the subscriber object itself is untouched. -/
def OpState.unsubscribe (st : OpState α ε) (t : Nat) : OpState α ε :=
  { st with observers := removeObserver st.observers t }

/-- The registry operations callers can perform on the returned observable. -/
inductive Action where
  | subscribe
  | unsubscribe (t : Nat)
  deriving DecidableEq

def OpState.applyAction (st : OpState α ε) : Action → OpState α ε
  | .subscribe => st.subscribe
  | .unsubscribe t => st.unsubscribe t

def OpState.applyActions (st : OpState α ε) (as : List Action) : OpState α ε :=
  as.foldl OpState.applyAction st

/-- The settlement drain, transcribed from lines 141-145: a single forEach pass
over the observers array in push order, applying the loop body to each
subscriber present at that instant. -/
def drainState (o : Outcome α ε) (st : OpState α ε) : OpState α ε :=
  { st with
    heap := st.observers.foldl (fun h t => heapUpdate h t (deliverOutcome o)) st.heap }

/-- One complete execution of a mutating facade call. The registry starts
empty; pre are the subscribe / unsubscribe actions performed before the host
mutation settles, o the unique settlement outcome, post the actions performed
afterwards. The registry is drained exactly once, at settlement, and never
read again: post actions can only push fresh never-delivered subscribers or
remove array entries. insert, remove, update and upsert below are instances of
this one body. -/
def runMutation (pre : List Action) (o : Outcome α ε) (post : List Action) :
    OpState α ε :=
  OpState.applyActions (drainState o (OpState.applyActions initState pre)) post

/-- The callback invocations the subscriber with identity t observed over the
whole call, or none when no such subscriber was ever created. -/
def receivedBy (st : OpState α ε) (t : Nat) : Option (List (Event α ε)) :=
  (heapLookup st.heap t).map Subscriber.received

/-- Completion of the promise a mutating method returns. The only awaited
operation sits inside the try/catch of lines 134-139 (and 165-170, 203-208,
242-247) whose catch clause stores the rejection instead of rethrowing, and the
rest of the body is straight-line code, so the method's own promise always
resolves: a host rejection never makes the facade call reject. -/
def mutationCall (pre : List Action) (o : Outcome α ε) (post : List Action) :
    Except ε (OpState α ε) :=
  Except.ok (runMutation pre o post)

/-- Caller-visible phases of one mutating method execution. -/
inductive CallPhase where
  | createRegistry
  | createObservable
  | launchHostMutation
  | hostMutationSettles
  | drainRegistry
  | promiseResolvesWithObservable
  deriving DecidableEq, BEq

/-- Control-flow order of each async mutating method body (insert lines
128-148; remove, update and upsert are identical in shape): the observers
array and observable are created, the host mutation is launched and awaited,
the registry is drained after settlement, and only then does the method's
returned promise resolve with the observable, because the return statement of
an async function runs after its awaits. -/
def mutationCallOrder : List CallPhase :=
  [CallPhase.createRegistry, CallPhase.createObservable,
   CallPhase.launchHostMutation, CallPhase.hostMutationSettles,
   CallPhase.drainRegistry, CallPhase.promiseResolvesWithObservable]

/-- Modelled from the spec (section 4.1, section 6): the host upsert resolves
with an object carrying the affected count and, when a document was inserted,
its id; the facade passes this object through to its subscribers unchanged. -/
structure UpsertHostResult (DocId : Type) where
  count : Nat
  insertedId : Option DocId
  deriving DecidableEq

/-- A value as handed back by a method call: either a plain value returned
synchronously, or a pending promise that later resolves to the value. -/
inductive SyncOrDeferred (β : Type) where
  | sync (v : β)
  | deferred (resolvesTo : β)
  deriving DecidableEq

/-- Modelled from the spec: the host document store is an external collaborator
(spec section 6). Each *Async mutation returns a deferred outcome that resolves
with a result or rejects with an error object; find returns a cursor handle;
findOneFirst is the store's answer to a findOne query, the first matching
document or undefined (modelled as Option). -/
structure HostCollection (T DocId Sel Mdf UpdO UpsO FOpt Cur ε : Type) where
  insertAsync : T → Outcome DocId ε
  removeAsync : Sel → Outcome Nat ε
  updateAsync : Sel → Mdf → Option UpdO → Outcome Nat ε
  upsertAsync : Sel → Mdf → Option UpsO → Outcome (UpsertHostResult DocId) ε
  findOneFirst : Option Sel → Option FOpt → Option T
  find : Option Sel → Option FOpt → Cur

/-- Modelled from the spec (section 6): the host's findOneAsync returns a
deferred result, resolving to the first matching document or undefined. -/
def HostCollection.findOneAsync
    (h : HostCollection T DocId Sel Mdf UpdO UpsO FOpt Cur ε)
    (selector : Option Sel) (options : Option FOpt) : SyncOrDeferred (Option T) :=
  SyncOrDeferred.deferred (h.findOneFirst selector options)

/-- Modelled from the spec: ObservableCursor lives in src/ObservableCursor.ts,
which is not present under src/. The spec (section 4.3) requires only a create
operation turning a live cursor handle into the query stream; the facade
forwards the handle verbatim, so only the handle is modelled. -/
structure ObservableCursor (Cur : Type) where
  cursor : Cur
  deriving DecidableEq

def ObservableCursor.create (cursor : Cur) : ObservableCursor Cur :=
  ⟨cursor⟩

/-- The facade class of ObservableCollection.ts, wrapping a host collection. -/
structure Collection (T DocId Sel Mdf UpdO UpsO FOpt Cur ε : Type) where
  _collection : HostCollection T DocId Sel Mdf UpdO UpsO FOpt Cur ε

/-- Collection.insert (lines 128-148): one run of the shared mutating body with
the outcome of the host insertAsync call on the document. -/
def Collection.insert (c : Collection T DocId Sel Mdf UpdO UpsO FOpt Cur ε)
    (doc : T) (pre post : List Action) : OpState DocId ε :=
  runMutation pre (c._collection.insertAsync doc) post

/-- Collection.remove (lines 159-179). -/
def Collection.remove (c : Collection T DocId Sel Mdf UpdO UpsO FOpt Cur ε)
    (selector : Sel) (pre post : List Action) : OpState Nat ε :=
  runMutation pre (c._collection.removeAsync selector) post

/-- Collection.update (lines 193-217). -/
def Collection.update (c : Collection T DocId Sel Mdf UpdO UpsO FOpt Cur ε)
    (selector : Sel) (modifier : Mdf) (options : Option UpdO)
    (pre post : List Action) : OpState Nat ε :=
  runMutation pre (c._collection.updateAsync selector modifier options) post

/-- Collection.upsert (lines 232-256): the settled host value is delivered to
subscribers verbatim. -/
def Collection.upsert (c : Collection T DocId Sel Mdf UpdO UpsO FOpt Cur ε)
    (selector : Sel) (modifier : Mdf) (options : Option UpsO)
    (pre post : List Action) : OpState (UpsertHostResult DocId) ε :=
  runMutation pre (c._collection.upsertAsync selector modifier options) post

/-- Collection.find (lines 278-290): forwards the arguments to the host find
and wraps the resulting cursor via ObservableCursor.create. -/
def Collection.find (c : Collection T DocId Sel Mdf UpdO UpsO FOpt Cur ε)
    (selector : Option Sel) (options : Option FOpt) : ObservableCursor Cur :=
  ObservableCursor.create (c._collection.find selector options)

/-- Collection.findOne (lines 302-312): forwards the arguments to the host
findOneAsync and returns its value - which is the deferred result itself, not
the resolved document. -/
def Collection.findOne (c : Collection T DocId Sel Mdf UpdO UpsO FOpt Cur ε)
    (selector : Option Sel) (options : Option FOpt) : SyncOrDeferred (Option T) :=
  c._collection.findOneAsync selector options

/-- Line 42: public insertAsync = this.insert. -/
def Collection.insertAsync (c : Collection T DocId Sel Mdf UpdO UpsO FOpt Cur ε)
    (doc : T) (pre post : List Action) : OpState DocId ε :=
  c.insert doc pre post

/-- Line 43: public removeAsync = this.remove. -/
def Collection.removeAsync (c : Collection T DocId Sel Mdf UpdO UpsO FOpt Cur ε)
    (selector : Sel) (pre post : List Action) : OpState Nat ε :=
  c.remove selector pre post

/-- Line 44: public updateAsync = this.update. -/
def Collection.updateAsync (c : Collection T DocId Sel Mdf UpdO UpsO FOpt Cur ε)
    (selector : Sel) (modifier : Mdf) (options : Option UpdO)
    (pre post : List Action) : OpState Nat ε :=
  c.update selector modifier options pre post

/-- Line 45: public upsertAsync = this.upsert. -/
def Collection.upsertAsync (c : Collection T DocId Sel Mdf UpdO UpsO FOpt Cur ε)
    (selector : Sel) (modifier : Mdf) (options : Option UpsO)
    (pre post : List Action) : OpState (UpsertHostResult DocId) ε :=
  c.upsert selector modifier options pre post

/-- Line 46: public findAsync = this.find. -/
def Collection.findAsync (c : Collection T DocId Sel Mdf UpdO UpsO FOpt Cur ε)
    (selector : Option Sel) (options : Option FOpt) : ObservableCursor Cur :=
  c.find selector options

/-- Line 47: public findOneAsync = this.findOne. -/
def Collection.findOneAsync (c : Collection T DocId Sel Mdf UpdO UpsO FOpt Cur ε)
    (selector : Option Sel) (options : Option FOpt) : SyncOrDeferred (Option T) :=
  c.findOne selector options

/-- A concrete host collection over Nat-coded documents, used to evaluate the
model at specific inputs. -/
def sampleHost : HostCollection Nat Nat Nat Nat Nat Nat Nat Nat Nat where
  insertAsync := fun _ => Outcome.success 0
  removeAsync := fun _ => Outcome.success 1
  updateAsync := fun _ _ _ => Outcome.success 1
  upsertAsync := fun _ _ _ => Outcome.success ⟨1, some 5⟩
  findOneFirst := fun _ _ => none
  find := fun _ _ => 0

/-- A concrete facade wrapping sampleHost. -/
def sampleCollection : Collection Nat Nat Nat Nat Nat Nat Nat Nat Nat :=
  ⟨sampleHost⟩

theorem applyActions_cons (st : OpState α ε) (a : Action) (as : List Action) :
    st.applyActions (a :: as) = (st.applyAction a).applyActions as := rfl

theorem applyActions_append (st : OpState α ε) (as bs : List Action) :
    st.applyActions (as ++ bs) = (st.applyActions as).applyActions bs := by
  unfold OpState.applyActions
  rw [List.foldl_append]

theorem heapLookup_nil (t : Nat) :
    heapLookup ([] : List (Nat × Subscriber α ε)) t = none := rfl

theorem heapLookup_cons (p : Nat × Subscriber α ε)
    (h : List (Nat × Subscriber α ε)) (t : Nat) :
    heapLookup (p :: h) t = if p.1 == t then some p.2 else heapLookup h t := by
  unfold heapLookup
  cases hp : p.1 == t with
  | true => simp [List.find?_cons, hp]
  | false => simp [List.find?_cons, hp]

theorem heapLookup_append_left {h h2 : List (Nat × Subscriber α ε)} {t : Nat}
    {s : Subscriber α ε} (hs : heapLookup h t = some s) :
    heapLookup (h ++ h2) t = some s := by
  induction h with
  | nil => simp [heapLookup] at hs
  | cons p h ih =>
    rw [List.cons_append, heapLookup_cons]
    rw [heapLookup_cons] at hs
    by_cases hp : (p.1 == t) = true
    · rw [if_pos hp]
      rw [if_pos hp] at hs
      exact hs
    · rw [if_neg hp]
      rw [if_neg hp] at hs
      exact ih hs

theorem heapLookup_append_right {h h2 : List (Nat × Subscriber α ε)} {t : Nat}
    (hn : heapLookup h t = none) : heapLookup (h ++ h2) t = heapLookup h2 t := by
  induction h with
  | nil => rfl
  | cons p h ih =>
    rw [List.cons_append, heapLookup_cons]
    rw [heapLookup_cons] at hn
    by_cases hp : (p.1 == t) = true
    · rw [if_pos hp] at hn
      cases hn
    · rw [if_neg hp]
      rw [if_neg hp] at hn
      exact ih hn

theorem heapLookup_some_mem {h : List (Nat × Subscriber α ε)} {t : Nat}
    {s : Subscriber α ε} (hs : heapLookup h t = some s) : (t, s) ∈ h := by
  induction h with
  | nil => simp [heapLookup] at hs
  | cons p h ih =>
    rw [heapLookup_cons] at hs
    by_cases hp : (p.1 == t) = true
    · rw [if_pos hp] at hs
      have h1 : p.1 = t := by simpa using hp
      have h2 : p.2 = s := by simpa using hs
      have hp2 : p = (t, s) := by
        cases p
        simp_all
      rw [← hp2]
      exact List.mem_cons_self _ _
    · rw [if_neg hp] at hs
      exact List.mem_cons_of_mem _ (ih hs)

theorem heapLookup_eq_none_of_forall_ne {h : List (Nat × Subscriber α ε)} {t : Nat}
    (ha : ∀ p ∈ h, p.1 ≠ t) : heapLookup h t = none := by
  induction h with
  | nil => rfl
  | cons p h ih =>
    rw [heapLookup_cons]
    have hp : ¬ (p.1 == t) = true := by
      simpa using ha p (List.mem_cons_self p h)
    rw [if_neg hp]
    exact ih (fun q hq => ha q (List.mem_cons_of_mem _ hq))

theorem heapLookup_heapUpdate_self {h : List (Nat × Subscriber α ε)} {t : Nat}
    {f : Subscriber α ε → Subscriber α ε} :
    heapLookup (heapUpdate h t f) t = (heapLookup h t).map f := by
  induction h with
  | nil => rfl
  | cons p h ih =>
    unfold heapUpdate
    rw [List.map_cons]
    by_cases hp : (p.1 == t) = true
    · rw [if_pos hp, heapLookup_cons, heapLookup_cons, if_pos hp, if_pos hp]
      rfl
    · rw [if_neg hp, heapLookup_cons, heapLookup_cons, if_neg hp, if_neg hp]
      exact ih

theorem heapLookup_heapUpdate_other {h : List (Nat × Subscriber α ε)} {t u : Nat}
    {f : Subscriber α ε → Subscriber α ε} (hne : t ≠ u) :
    heapLookup (heapUpdate h u f) t = heapLookup h t := by
  induction h with
  | nil => rfl
  | cons p h ih =>
    unfold heapUpdate
    rw [List.map_cons]
    by_cases hp : (p.1 == u) = true
    · have hpt : ¬ (p.1 == t) = true := by
        simp only [beq_iff_eq] at hp ⊢
        rw [hp]
        exact fun hh => hne hh.symm
      rw [if_pos hp, heapLookup_cons, heapLookup_cons, if_neg hpt, if_neg hpt]
      exact ih
    · rw [if_neg hp, heapLookup_cons, heapLookup_cons]
      by_cases hpt : (p.1 == t) = true
      · rw [if_pos hpt, if_pos hpt]
      · rw [if_neg hpt, if_neg hpt]
        exact ih

theorem heapLookup_foldl_not_mem {l : List Nat} {h : List (Nat × Subscriber α ε)}
    {f : Subscriber α ε → Subscriber α ε} {t : Nat} (ht : t ∉ l) :
    heapLookup (l.foldl (fun h2 u => heapUpdate h2 u f) h) t = heapLookup h t := by
  induction l generalizing h with
  | nil => rfl
  | cons u l ih =>
    rw [List.foldl_cons]
    have h1 : t ≠ u := fun hh => ht (hh ▸ List.mem_cons_self u l)
    rw [ih (fun hm => ht (List.mem_cons_of_mem _ hm))]
    exact heapLookup_heapUpdate_other h1

theorem heapLookup_foldl_mem {l : List Nat} {h : List (Nat × Subscriber α ε)}
    {f : Subscriber α ε → Subscriber α ε} {t : Nat}
    (hnd : l.Nodup) (ht : t ∈ l) :
    heapLookup (l.foldl (fun h2 u => heapUpdate h2 u f) h) t = (heapLookup h t).map f := by
  induction l generalizing h with
  | nil => cases ht
  | cons u l ih =>
    rw [List.foldl_cons]
    rcases List.mem_cons.mp ht with rfl | hmem
    · have hnotin : t ∉ l := (List.nodup_cons.mp hnd).1
      rw [heapLookup_foldl_not_mem hnotin, heapLookup_heapUpdate_self]
    · have hne : t ≠ u := by
        rintro rfl
        exact (List.nodup_cons.mp hnd).1 hmem
      rw [ih (List.nodup_cons.mp hnd).2 hmem, heapLookup_heapUpdate_other hne]

theorem heapLookup_applyAction_of_isSome {st : OpState α ε} {t : Nat}
    {s : Subscriber α ε} (a : Action) (hs : heapLookup st.heap t = some s) :
    heapLookup (st.applyAction a).heap t = some s := by
  cases a with
  | subscribe => exact heapLookup_append_left hs
  | unsubscribe u => exact hs

theorem heapLookup_applyActions_of_isSome {st : OpState α ε} {t : Nat}
    {s : Subscriber α ε} (as : List Action) (hs : heapLookup st.heap t = some s) :
    heapLookup (st.applyActions as).heap t = some s := by
  induction as generalizing st with
  | nil => exact hs
  | cons a as ih => exact ih (heapLookup_applyAction_of_isSome a hs)

theorem heapLookup_applyActions_of_none {st : OpState α ε} {t : Nat}
    (as : List Action) (hn : heapLookup st.heap t = none) :
    heapLookup (st.applyActions as).heap t = none ∨
      heapLookup (st.applyActions as).heap t = some Subscriber.fresh := by
  induction as generalizing st with
  | nil => exact Or.inl hn
  | cons a as ih =>
    rw [applyActions_cons]
    cases a with
    | unsubscribe v => exact ih hn
    | subscribe =>
      by_cases hb : st.nextToken = t
      · have hsome : heapLookup (st.subscribe).heap t = some Subscriber.fresh := by
          show heapLookup (st.heap ++ [(st.nextToken, Subscriber.fresh)]) t = _
          rw [heapLookup_append_right hn, hb, heapLookup_cons]
          simp
        exact Or.inr (heapLookup_applyActions_of_isSome as hsome)
      · have hnone : heapLookup (st.subscribe).heap t = none := by
          show heapLookup (st.heap ++ [(st.nextToken, Subscriber.fresh)]) t = none
          rw [heapLookup_append_right hn, heapLookup_cons]
          have hbb : ¬ (st.nextToken == t) = true := by simpa using hb
          rw [if_neg hbb]
          rfl
        exact ih hnone

theorem heapLookup_applyActions_congr {st1 st2 : OpState α ε} {u : Nat}
    (post : List Action) (hn : st1.nextToken = st2.nextToken)
    (hl : heapLookup st1.heap u = heapLookup st2.heap u) :
    heapLookup (st1.applyActions post).heap u =
      heapLookup (st2.applyActions post).heap u := by
  induction post generalizing st1 st2 with
  | nil => exact hl
  | cons a as ih =>
    rw [applyActions_cons, applyActions_cons]
    cases a with
    | unsubscribe v => exact ih hn hl
    | subscribe =>
      apply ih
      · show st1.nextToken + 1 = st2.nextToken + 1
        rw [hn]
      · show heapLookup (st1.heap ++ [(st1.nextToken, Subscriber.fresh)]) u =
          heapLookup (st2.heap ++ [(st2.nextToken, Subscriber.fresh)]) u
        rw [hn]
        cases hc : heapLookup st1.heap u with
        | some s =>
          rw [heapLookup_append_left hc, heapLookup_append_left (hl.symm.trans hc)]
        | none =>
          rw [heapLookup_append_right hc, heapLookup_append_right (hl.symm.trans hc)]

/-- Invariant of the registry before settlement: the observers array lists
distinct identities in creation (hence push) order, every identity is below the
fresh-identity counter, and since the drain is the only point at which
callbacks are invoked, every subscriber object created so far is still fresh,
with array entries resolvable in the heap. -/
structure PreSettleInv (st : OpState α ε) : Prop where
  obsSorted : st.observers.Sorted (· < ·)
  obsBound : ∀ t ∈ st.observers, t < st.nextToken
  heapBound : ∀ p ∈ st.heap, p.1 < st.nextToken
  heapFresh : ∀ p ∈ st.heap, p.2 = Subscriber.fresh
  obsInHeap : ∀ t ∈ st.observers, heapLookup st.heap t = some Subscriber.fresh

theorem preInv_init : PreSettleInv (initState : OpState α ε) := by
  refine ⟨?_, ?_, ?_, ?_, ?_⟩ <;> simp [initState, List.Sorted]

theorem preInv_applyAction {st : OpState α ε} (hI : PreSettleInv st) (a : Action) :
    PreSettleInv (st.applyAction a) := by
  cases a with
  | subscribe =>
    refine ⟨?_, ?_, ?_, ?_, ?_⟩
    · show (st.observers ++ [st.nextToken]).Sorted (· < ·)
      refine List.pairwise_append.mpr ⟨hI.obsSorted, List.sorted_singleton _, ?_⟩
      intro x hx y hy
      rw [List.mem_singleton] at hy
      subst hy
      exact hI.obsBound x hx
    · intro t htm
      rcases List.mem_append.mp htm with hl | hr
      · exact Nat.lt_succ_of_lt (hI.obsBound t hl)
      · rw [List.mem_singleton] at hr
        subst hr
        exact Nat.lt_succ_self _
    · intro p hp
      rcases List.mem_append.mp hp with hl | hr
      · exact Nat.lt_succ_of_lt (hI.heapBound p hl)
      · rw [List.mem_singleton] at hr
        subst hr
        exact Nat.lt_succ_self _
    · intro p hp
      rcases List.mem_append.mp hp with hl | hr
      · exact hI.heapFresh p hl
      · rw [List.mem_singleton] at hr
        subst hr
        rfl
    · intro t htm
      rcases List.mem_append.mp htm with hl | hr
      · exact heapLookup_append_left (hI.obsInHeap t hl)
      · rw [List.mem_singleton] at hr
        subst hr
        have hnone : heapLookup st.heap st.nextToken = none :=
          heapLookup_eq_none_of_forall_ne
            (fun p hp => Nat.ne_of_lt (hI.heapBound p hp))
        show heapLookup (st.heap ++ [(st.nextToken, Subscriber.fresh)]) st.nextToken = _
        rw [heapLookup_append_right hnone, heapLookup_cons]
        simp
  | unsubscribe u =>
    refine ⟨?_, ?_, hI.heapBound, hI.heapFresh, ?_⟩
    · exact List.Pairwise.sublist (List.filter_sublist _) hI.obsSorted
    · intro t htm
      exact hI.obsBound t (List.mem_of_mem_filter htm)
    · intro t htm
      exact hI.obsInHeap t (List.mem_of_mem_filter htm)

theorem preInv_applyActions {st : OpState α ε} (hI : PreSettleInv st)
    (as : List Action) : PreSettleInv (st.applyActions as) := by
  induction as generalizing st with
  | nil => exact hI
  | cons a as ih => exact ih (preInv_applyAction hI a)

theorem sorted_lt_nodup {l : List Nat} (h : l.Sorted (· < ·)) : l.Nodup :=
  h.imp (fun hlt => Nat.ne_of_lt hlt)

theorem deliverOutcome_fresh (o : Outcome α ε) :
    deliverOutcome o Subscriber.fresh =
      ⟨terminalEvents o, true⟩ := by
  cases o <;> rfl

/-- A subscriber still registered when the mutation settles observes exactly
the single terminal event sequence of the outcome, whatever happens to the
registry afterwards. -/
theorem receivedBy_runMutation_of_mem (pre : List Action) (o : Outcome α ε)
    (post : List Action) (t : Nat)
    (ht : t ∈ (OpState.applyActions (initState (α := α) (ε := ε)) pre).observers) :
    receivedBy (runMutation pre o post) t = some (terminalEvents o) := by
  have hI := preInv_applyActions (preInv_init (α := α) (ε := ε)) pre
  have hfresh := hI.obsInHeap t ht
  have hnd : (OpState.applyActions initState pre).observers.Nodup :=
    sorted_lt_nodup hI.obsSorted
  have hdrain : heapLookup (drainState o (OpState.applyActions initState pre)).heap t =
      some (deliverOutcome o Subscriber.fresh) := by
    show heapLookup ((OpState.applyActions initState pre).observers.foldl
        (fun h u => heapUpdate h u (deliverOutcome o))
        (OpState.applyActions initState pre).heap) t = _
    rw [heapLookup_foldl_mem hnd ht, hfresh]
    rfl
  have hfinal := heapLookup_applyActions_of_isSome post hdrain
  unfold runMutation receivedBy
  rw [hfinal, deliverOutcome_fresh]
  rfl

/-- A subscriber identity not in the observers array at settlement never has a
callback invoked across the whole call: its object, if it exists at all, shows
an empty received log at the end. -/
theorem receivedBy_runMutation_of_not_mem (pre : List Action) (o : Outcome α ε)
    (post : List Action) (t : Nat)
    (ht : t ∉ (OpState.applyActions (initState (α := α) (ε := ε)) pre).observers) :
    receivedBy (runMutation pre o post) t = none ∨
      receivedBy (runMutation pre o post) t = some [] := by
  have hI := preInv_applyActions (preInv_init (α := α) (ε := ε)) pre
  have hdrain : heapLookup (drainState o (OpState.applyActions initState pre)).heap t =
      heapLookup (OpState.applyActions initState pre).heap t := by
    show heapLookup ((OpState.applyActions initState pre).observers.foldl
        (fun h u => heapUpdate h u (deliverOutcome o))
        (OpState.applyActions initState pre).heap) t = _
    exact heapLookup_foldl_not_mem ht
  cases hc : heapLookup (OpState.applyActions initState pre).heap t with
  | some s =>
    have hfr : s = Subscriber.fresh := hI.heapFresh _ (heapLookup_some_mem hc)
    have hfinal := heapLookup_applyActions_of_isSome post (hdrain.trans hc)
    right
    unfold runMutation receivedBy
    rw [hfinal, hfr]
    rfl
  | none =>
    rcases heapLookup_applyActions_of_none post (hdrain.trans hc) with h1 | h1
    · left
      unfold runMutation receivedBy
      rw [h1]
      rfl
    · right
      unfold runMutation receivedBy
      rw [h1]
      rfl

/-- Claim C1: refuted by the code. Each mutating method is declared async and
awaits the host mutation before its return statement, so the promise it hands
the caller resolves with the stream handle only after the host mutation has
settled and the registry has been drained: the handle is not returned before
settlement, contrary to the claim. The phase order below is transcribed from
the body of insert (lines 128-148; remove, update, upsert are identical in
shape), and settlement strictly precedes the resolution that delivers the
observable. -/
theorem mutation_call_resolves_only_after_settlement :
    mutationCallOrder.indexOf CallPhase.hostMutationSettles <
      mutationCallOrder.indexOf CallPhase.promiseResolvesWithObservable ∧
    ¬ mutationCallOrder.indexOf CallPhase.promiseResolvesWithObservable <
        mutationCallOrder.indexOf CallPhase.hostMutationSettles ∧
    mutationCallOrder.count CallPhase.hostMutationSettles = 1 ∧
    mutationCallOrder.count CallPhase.promiseResolvesWithObservable = 1 := by
  decide

/-- Claim C2: a subscriber still registered in the observers array when the
mutation settles observes exactly one terminal outcome: on success the next
callback with the result followed by the complete callback, on failure the
error callback alone (the drain's unconditional complete after error is
ignored by the finished subscription) - never both, never twice, never
nothing. -/
theorem registered_subscriber_receives_one_terminal
    (pre : List Action) (o : Outcome α ε) (post : List Action) (t : Nat)
    (ht : t ∈ (OpState.applyActions (initState (α := α) (ε := ε)) pre).observers) :
    receivedBy (runMutation pre o post) t = some (terminalEvents o) :=
  receivedBy_runMutation_of_mem pre o post t ht

theorem registered_subscriber_receives_one_terminal_witness :
    receivedBy (runMutation [Action.subscribe] (Outcome.success (42 : Nat)) []
      (ε := Nat)) 0 = some [Event.next 42, Event.complete] := by
  have h := registered_subscriber_receives_one_terminal [Action.subscribe]
      (Outcome.success (42 : Nat)) ([] : List Action) 0 (by decide) (ε := Nat)
  exact h

/-- Claim C3: a host rejection is captured once by the catch clause and never
re-thrown: the facade call's own promise resolves regardless of the failure;
over the whole call a subscriber object observes either nothing or exactly the
single error callback with the captured error, so the rejection is observable
only through a registered subscriber's error callback; and when the observers
array is empty at settlement, every subscriber object observes nothing - the
error is silently discarded. -/
theorem failure_never_rejects_and_only_error_callback
    (pre : List Action) (e : ε) (post : List Action) :
    mutationCall pre (Outcome.failure (α := α) e) post =
      Except.ok (runMutation pre (Outcome.failure (α := α) e) post) ∧
    (∀ t : Nat,
      receivedBy (runMutation pre (Outcome.failure (α := α) e) post) t = none ∨
      receivedBy (runMutation pre (Outcome.failure (α := α) e) post) t = some [] ∨
      receivedBy (runMutation pre (Outcome.failure (α := α) e) post) t =
        some [Event.error e]) ∧
    ((OpState.applyActions (initState (α := α) (ε := ε)) pre).observers = [] →
      ∀ t : Nat,
        receivedBy (runMutation pre (Outcome.failure (α := α) e) post) t = none ∨
        receivedBy (runMutation pre (Outcome.failure (α := α) e) post) t = some []) := by
  refine ⟨rfl, ?_, ?_⟩
  · intro t
    by_cases ht : t ∈ (OpState.applyActions (initState (α := α) (ε := ε)) pre).observers
    · right
      right
      exact receivedBy_runMutation_of_mem pre (Outcome.failure e) post t ht
    · rcases receivedBy_runMutation_of_not_mem pre (Outcome.failure e) post t ht with h | h
      · exact Or.inl h
      · exact Or.inr (Or.inl h)
  · intro hobs t
    have ht : t ∉ (OpState.applyActions (initState (α := α) (ε := ε)) pre).observers := by
      rw [hobs]
      simp
    exact receivedBy_runMutation_of_not_mem pre (Outcome.failure e) post t ht

theorem failure_never_rejects_and_only_error_callback_witness :
    receivedBy (runMutation [Action.subscribe] (Outcome.failure (α := Nat) (7 : Nat)) []) 0 =
      some [Event.error 7] := by
  have h := failure_never_rejects_and_only_error_callback (α := Nat)
      [Action.subscribe] (7 : Nat) ([] : List Action)
  exact ((h.2.1 0).resolve_left (by decide)).resolve_left (by decide)

/-- Claim C4: at settlement every subscriber still registered receives the
identical single outcome of the one host mutation: the drain is a single
forEach pass over the observers array, which lists subscribers in registration
order (strictly increasing creation tokens), and the phase order of the method
body records exactly one host mutation launch and exactly one drain. -/
theorem settlement_multicast_identical_in_order
    (pre : List Action) (o : Outcome α ε) (post : List Action) :
    (∀ t ∈ (OpState.applyActions (initState (α := α) (ε := ε)) pre).observers,
        receivedBy (runMutation pre o post) t = some (terminalEvents o)) ∧
    (OpState.applyActions (initState (α := α) (ε := ε)) pre).observers.Sorted (· < ·) ∧
    mutationCallOrder.count CallPhase.launchHostMutation = 1 ∧
    mutationCallOrder.count CallPhase.drainRegistry = 1 := by
  refine ⟨fun t ht => receivedBy_runMutation_of_mem pre o post t ht,
    (preInv_applyActions (preInv_init (α := α) (ε := ε)) pre).obsSorted,
    by decide, by decide⟩

theorem settlement_multicast_identical_in_order_witness :
    receivedBy (runMutation [Action.subscribe, Action.subscribe]
        (Outcome.success (3 : Nat)) [] (ε := Nat)) 0 =
      some [Event.next 3, Event.complete] ∧
    receivedBy (runMutation [Action.subscribe, Action.subscribe]
        (Outcome.success (3 : Nat)) [] (ε := Nat)) 1 =
      some [Event.next 3, Event.complete] := by
  have h := settlement_multicast_identical_in_order (ε := Nat)
      [Action.subscribe, Action.subscribe] (Outcome.success (3 : Nat)) ([] : List Action)
  exact ⟨h.1 0 (by decide), h.1 1 (by decide)⟩

/-- Claim C5: a subscriber that did not exist when the mutation settled (one
created by subscribing to the returned stream after settlement) never has a
callback invoked: the registry is drained exactly once, before the
subscription existed, so the subscriber's received log stays empty; subscribing
is a total operation that raises nothing, and the unsubscribe obtained from
such a late subscription only filters the never-again-read observers array,
leaving every subscriber object untouched. -/
theorem late_subscription_receives_nothing
    (pre : List Action) (o : Outcome α ε) (post : List Action) (t : Nat)
    (ht : heapLookup (drainState o (OpState.applyActions initState pre)).heap t = none) :
    (receivedBy (runMutation pre o post) t = none ∨
      receivedBy (runMutation pre o post) t = some []) ∧
    ((runMutation pre o post).applyAction (Action.unsubscribe t)).heap =
      (runMutation pre o post).heap := by
  constructor
  · rcases heapLookup_applyActions_of_none post ht with h | h
    · left
      unfold runMutation receivedBy
      rw [h]
      rfl
    · right
      unfold runMutation receivedBy
      rw [h]
      rfl
  · rfl

theorem late_subscription_receives_nothing_witness :
    receivedBy (runMutation [] (Outcome.success (1 : Nat)) [Action.subscribe]
      (ε := Nat)) 0 = some [] := by
  have h := late_subscription_receives_nothing [] (Outcome.success (1 : Nat))
      [Action.subscribe] 0 (by decide) (ε := Nat)
  exact (h.1).resolve_left (by decide)

/-- Claim C6: a subscriber that unsubscribed before settlement (so its identity
is absent from the observers array when the drain runs) never has a callback
invoked over the whole call; and the unsubscribe has no effect on the in-flight
host mutation - the same settlement outcome still arrives and is still
delivered in full to every subscriber that remained registered. -/
theorem unsubscribed_before_settlement_never_invoked
    (pre : List Action) (o : Outcome α ε) (post : List Action) (t : Nat)
    (ht : t ∉ (OpState.applyActions (initState (α := α) (ε := ε)) pre).observers) :
    (receivedBy (runMutation pre o post) t = none ∨
      receivedBy (runMutation pre o post) t = some []) ∧
    (∀ u ∈ (OpState.applyActions (initState (α := α) (ε := ε)) pre).observers,
        receivedBy (runMutation pre o post) u = some (terminalEvents o)) :=
  ⟨receivedBy_runMutation_of_not_mem pre o post t ht,
   fun u hu => receivedBy_runMutation_of_mem pre o post u hu⟩

theorem unsubscribed_before_settlement_never_invoked_witness :
    receivedBy (runMutation [Action.subscribe, Action.unsubscribe 0, Action.subscribe]
        (Outcome.success (9 : Nat)) [] (ε := Nat)) 0 = some [] ∧
    receivedBy (runMutation [Action.subscribe, Action.unsubscribe 0, Action.subscribe]
        (Outcome.success (9 : Nat)) [] (ε := Nat)) 1 =
      some [Event.next 9, Event.complete] := by
  have h := unsubscribed_before_settlement_never_invoked
      [Action.subscribe, Action.unsubscribe 0, Action.subscribe]
      (Outcome.success (9 : Nat)) ([] : List Action) 0 (by decide) (ε := Nat)
  exact ⟨(h.1).resolve_left (by decide), h.2 1 (by decide)⟩

/-- Claim C7: refuted by the code. findOne (lines 302-312) forwards its
arguments to the host's findOneAsync and returns that call's value - which is
the deferred result (a promise resolving to the first match or undefined),
never a plain synchronous value, contrary to the claim and to the method's own
declared return type. -/
theorem findOne_returns_deferred_not_plain
    (c : Collection T DocId Sel Mdf UpdO UpsO FOpt Cur ε)
    (selector : Option Sel) (options : Option FOpt) :
    Collection.findOne c selector options =
      SyncOrDeferred.deferred (c._collection.findOneFirst selector options) ∧
    ∀ v : Option T, Collection.findOne c selector options ≠ SyncOrDeferred.sync v := by
  refine ⟨rfl, ?_⟩
  intro v h
  simp [Collection.findOne, HostCollection.findOneAsync] at h

theorem findOne_returns_deferred_not_plain_witness :
    Collection.findOne sampleCollection none none = SyncOrDeferred.deferred none ∧
    Collection.findOne sampleCollection none none ≠ SyncOrDeferred.sync none := by
  have h := findOne_returns_deferred_not_plain sampleCollection none none
  exact ⟨h.1, h.2 none⟩

/-- Claim C8: on a successful upsert, what the drain hands each registered
subscriber's next callback is the host's settled result object - a record with
a count field and an optional insertedId field, passed through verbatim - not
a bare number, followed by complete. -/
theorem upsert_emits_count_insertedId_record
    (c : Collection T DocId Sel Mdf UpdO UpsO FOpt Cur ε)
    (selector : Sel) (modifier : Mdf) (options : Option UpsO)
    (pre post : List Action) (t : Nat) (r : UpsertHostResult DocId)
    (hsucc : c._collection.upsertAsync selector modifier options = Outcome.success r)
    (ht : t ∈ (OpState.applyActions
        (initState (α := UpsertHostResult DocId) (ε := ε)) pre).observers) :
    receivedBy (Collection.upsert c selector modifier options pre post) t =
      some [Event.next (UpsertHostResult.mk r.count r.insertedId), Event.complete] := by
  unfold Collection.upsert
  rw [hsucc]
  exact receivedBy_runMutation_of_mem pre (Outcome.success r) post t ht

theorem upsert_emits_count_insertedId_record_witness :
    receivedBy (Collection.upsert sampleCollection 0 0 none [Action.subscribe] []) 0 =
      some [Event.next (UpsertHostResult.mk 1 (some 5)), Event.complete] := by
  have h := upsert_emits_count_insertedId_record sampleCollection 0 0 none
      [Action.subscribe] [] 0 (UpsertHostResult.mk 1 (some 5)) (by decide) (by decide)
  exact h

/-- Claim C9: the dual-named entry points of lines 42-47 delegate to their
counterparts and behave identically on every input: insertAsync is insert,
removeAsync is remove, updateAsync is update, upsertAsync is upsert, findAsync
is find and findOneAsync is findOne. -/
theorem async_aliases_delegate_identically
    (c : Collection T DocId Sel Mdf UpdO UpsO FOpt Cur ε) (doc : T)
    (selector : Sel) (modifier : Mdf) (uopts : Option UpdO) (sopts : Option UpsO)
    (fsel : Option Sel) (fopts : Option FOpt) (pre post : List Action) :
    c.insertAsync doc pre post = c.insert doc pre post ∧
    c.removeAsync selector pre post = c.remove selector pre post ∧
    c.updateAsync selector modifier uopts pre post =
      c.update selector modifier uopts pre post ∧
    c.upsertAsync selector modifier sopts pre post =
      c.upsert selector modifier sopts pre post ∧
    c.findAsync fsel fopts = c.find fsel fopts ∧
    c.findOneAsync fsel fopts = c.findOne fsel fopts :=
  ⟨rfl, rfl, rfl, rfl, rfl, rfl⟩

/-- Claim C10: unsubscribing one subscriber only removes that subscriber's own
entry from the observers array (second conjunct), and every other subscriber
observes exactly what it would have observed had the unsubscribe not happened
(first conjunct). -/
theorem unsubscribe_frame_other_subscribers_unchanged
    (pre : List Action) (o : Outcome α ε) (post : List Action) (t u : Nat)
    (hne : u ≠ t) :
    receivedBy (runMutation (pre ++ [Action.unsubscribe t]) o post) u =
      receivedBy (runMutation pre o post) u ∧
    (OpState.applyActions (initState (α := α) (ε := ε))
        (pre ++ [Action.unsubscribe t])).observers =
      removeObserver (OpState.applyActions (initState (α := α) (ε := ε)) pre).observers t := by
  have hstates : OpState.applyActions (initState (α := α) (ε := ε))
      (pre ++ [Action.unsubscribe t]) =
      (OpState.applyActions initState pre).unsubscribe t := by
    rw [applyActions_append]
    rfl
  constructor
  · by_cases hu : u ∈ (OpState.applyActions (initState (α := α) (ε := ε)) pre).observers
    · have hu2 : u ∈ (OpState.applyActions (initState (α := α) (ε := ε))
          (pre ++ [Action.unsubscribe t])).observers := by
        rw [hstates]
        show u ∈ removeObserver _ t
        unfold removeObserver
        rw [List.mem_filter]
        refine ⟨hu, ?_⟩
        simpa using hne
      rw [receivedBy_runMutation_of_mem (pre ++ [Action.unsubscribe t]) o post u hu2,
          receivedBy_runMutation_of_mem pre o post u hu]
    · have hu2 : u ∉ (OpState.applyActions (initState (α := α) (ε := ε))
          (pre ++ [Action.unsubscribe t])).observers := by
        rw [hstates]
        intro hmem
        exact hu (List.mem_of_mem_filter hmem)
      have e1 : heapLookup (drainState o (OpState.applyActions initState
          (pre ++ [Action.unsubscribe t]))).heap u =
          heapLookup (OpState.applyActions (initState (α := α) (ε := ε))
            (pre ++ [Action.unsubscribe t])).heap u :=
        heapLookup_foldl_not_mem hu2
      have e2 : heapLookup (drainState o (OpState.applyActions initState pre)).heap u =
          heapLookup (OpState.applyActions (initState (α := α) (ε := ε)) pre).heap u :=
        heapLookup_foldl_not_mem hu
      have hl : heapLookup (drainState o (OpState.applyActions initState
          (pre ++ [Action.unsubscribe t]))).heap u =
          heapLookup (drainState o (OpState.applyActions initState pre)).heap u := by
        rw [e1, e2, hstates]
        rfl
      have hn : (drainState o (OpState.applyActions initState
          (pre ++ [Action.unsubscribe t]))).nextToken =
          (drainState o (OpState.applyActions initState pre)).nextToken := by
        rw [hstates]
        rfl
      unfold runMutation receivedBy
      rw [heapLookup_applyActions_congr post hn hl]
  · rw [hstates]
    rfl

theorem unsubscribe_frame_other_subscribers_unchanged_witness :
    receivedBy (runMutation ([Action.subscribe, Action.subscribe] ++ [Action.unsubscribe 0])
        (Outcome.success (4 : Nat)) [] (ε := Nat)) 1 =
      receivedBy (runMutation [Action.subscribe, Action.subscribe]
        (Outcome.success (4 : Nat)) [] (ε := Nat)) 1 := by
  have h := unsubscribe_frame_other_subscribers_unchanged
      [Action.subscribe, Action.subscribe] (Outcome.success (4 : Nat))
      ([] : List Action) 0 1 (by decide) (ε := Nat)
  exact h.1

end MongoObservable
